import Mathlib

/-!
Verification of the federated-round orchestration engine of this repository
(`connectlib`): the FedAvg strategy (`connectlib/strategies/fed_avg.py`) and
the experiment driver (`connectlib/experiment.py`), shallowly embedded in
Lean 4.  Machine floats of the source are modelled as exact rationals; the
organization/node classes, which are not part of the given sources, are
modelled from the spec where noted.
-/

namespace Connectlib

/-- Participant identifier (`organization_id` / `node_id` in the source). -/
abbrev OrgId := String

/-- `connectlib.organizations.references.local_state.LocalStateRef`:
an opaque handle (a key) identifying a node-local model state. -/
structure LocalStateRef where
  key : Nat
deriving DecidableEq, Repr

/-- `connectlib.organizations.references.shared_state.SharedStateRef`:
an opaque handle (a key) identifying a shared state. -/
structure SharedStateRef where
  key : Nat
deriving DecidableEq, Repr

/-- `connectlib.schemas.FedAvgSharedState`: the record returned by the train
method of the algorithm, holding one parameter-delta per layer (each layer
modelled as an exact rational) and the number of samples it was trained on. -/
structure FedAvgSharedState where
  parameters_update : List ℚ
  n_samples : Nat
deriving DecidableEq, Repr

/-- `connectlib.schemas.FedAvgAveragedState`: the aggregation output.  It has
no sample-count field: only `avg_parameters_update`. -/
structure FedAvgAveragedState where
  avg_parameters_update : List ℚ
deriving DecidableEq, Repr

/-- The exceptions `FedAvg.avg_shared_states` can raise: `TypeError` on an
empty input list, `AssertionError` ("Not the same number of layers for every
input parameters.") on a shape mismatch, and Python's `ZeroDivisionError`
when the weight denominator `n_all_samples` is zero while at least one
layer is averaged. -/
inductive AvgError
  | EmptyInput
  | ShapeMismatch
  | DivisionByZero
deriving DecidableEq, Repr

/-- `FedAvg.avg_shared_states` (fed_avg.py, lines 164-186): weighted average
of the parameter updates, each delta multiplied by `n_samples /
n_all_samples` and the products then summed (`np.sum`) per layer index.
The output carries no `n_samples` field. -/
def avg_shared_states (shared_states : List FedAvgSharedState) :
    Except AvgError FedAvgAveragedState :=
  match shared_states with
  | [] => .error .EmptyInput
  | s0 :: rest =>
    let ss := s0 :: rest
    if ¬ (ss.all fun s =>
        decide (s.parameters_update.length = s0.parameters_update.length)) then
      .error .ShapeMismatch
    else
      let n_all_samples : Nat := (ss.map (·.n_samples)).sum
      if n_all_samples = 0 ∧ s0.parameters_update.length ≠ 0 then
        .error .DivisionByZero
      else
        .ok ⟨(List.range s0.parameters_update.length).map fun idx =>
          (ss.map fun s =>
            s.parameters_update.getD idx 0 *
              ((s.n_samples : ℚ) / (n_all_samples : ℚ))).sum⟩

/-- The kind of an operation registered on an organization's queue. -/
inductive OpKind
  | train
  | aggregate
  | test
deriving DecidableEq, Repr

/-- One operation record of the lazily built computation graph: its kind, the
owning participant, the round it belongs to, its input state references
(keys) and the keys of the state references it produces. -/
structure Operation where
  kind : OpKind
  org_id : OrgId
  round_idx : Int
  input_shared : Option Nat
  input_local : Option Nat
  agg_inputs : Option (List Nat)
  out_keys : List Nat
deriving DecidableEq, Repr

/-- The experiment-scoped graph state: the ordered list of registered
operations and a counter allocating fresh state-reference keys. -/
structure World where
  ops : List Operation
  next_key : Nat
deriving DecidableEq, Repr

/-- `connectlib.organizations.train_data_organization.TrainDataOrganization`:
a participant holding train data. -/
structure TrainDataOrganization where
  organization_id : OrgId
  data_sample_keys : List String
deriving DecidableEq, Repr

/-- `connectlib.organizations.test_data_organization.TestDataOrganization`:
a participant holding test data. -/
structure TestDataOrganization where
  organization_id : OrgId
deriving DecidableEq, Repr

/-- `connectlib.organizations.aggregation_organization.AggregationOrganization`:
the coordinating participant, without data. -/
structure AggregationOrganization where
  organization_id : OrgId
deriving DecidableEq, Repr

/-- The train operation record appended by
`TrainDataOrganization.update_states` when the key counter is `k`. -/
def trainOp (org : TrainDataOrganization)
    (input_shared : Option SharedStateRef)
    (local_state : Option LocalStateRef) (round_idx : Int) (k : Nat) :
    Operation :=
  { kind := .train
    org_id := org.organization_id
    round_idx := round_idx
    input_shared := input_shared.map (·.key)
    input_local := local_state.map (·.key)
    agg_inputs := none
    out_keys := [k, k + 1] }

/-- The aggregate operation record appended by
`AggregationOrganization.update_states` when the key counter is `k`
(`none` inputs model a Python `None` argument). -/
def aggOp (org : AggregationOrganization)
    (inputs : Option (List SharedStateRef)) (round_idx : Int) (k : Nat) :
    Operation :=
  { kind := .aggregate
    org_id := org.organization_id
    round_idx := round_idx
    input_shared := none
    input_local := none
    agg_inputs := some ((inputs.getD []).map (·.key))
    out_keys := [k] }

/-- The test operation record appended by
`TestDataOrganization.update_states`. -/
def testOp (org : TestDataOrganization) (traintuple_id : Nat)
    (round_idx : Int) : Operation :=
  { kind := .test
    org_id := org.organization_id
    round_idx := round_idx
    input_shared := none
    input_local := some traintuple_id
    agg_inputs := none
    out_keys := [] }

/-- Modelled from the spec: `TrainDataOrganization.update_states`
(spec §4.1 `register_train`), whose class is not among the given sources.
It appends one train operation to the queue (here: the experiment-scoped
operation list) and returns a fresh local-state reference together with a
fresh shared-state reference; no network I/O occurs. -/
def TrainDataOrganization.update_states (org : TrainDataOrganization)
    (input_shared : Option SharedStateRef)
    (local_state : Option LocalStateRef) (round_idx : Int) (w : World) :
    LocalStateRef × SharedStateRef × World :=
  (⟨w.next_key⟩, ⟨w.next_key + 1⟩,
    ⟨w.ops ++ [trainOp org input_shared local_state round_idx w.next_key],
      w.next_key + 2⟩)

/-- The error `register_aggregate` raises on zero payloads (spec §4.1:
"requesting aggregation with zero payloads is an
`EmptyAggregationInput`"). -/
inductive AggregationError
  | EmptyAggregationInput
deriving DecidableEq, Repr

/-- Modelled from the spec: `AggregationOrganization.update_states`
(spec §4.1 `register_aggregate`), whose class is not among the given
sources.  Requesting aggregation with zero payloads (a `None` argument
carries none) fails with `EmptyAggregationInput`; otherwise it appends one
aggregate operation consuming the given shared-state references and returns
a fresh shared-state reference. -/
def AggregationOrganization.update_states (org : AggregationOrganization)
    (inputs : Option (List SharedStateRef)) (round_idx : Int) (w : World) :
    Except AggregationError (SharedStateRef × World) :=
  if (inputs.getD []).isEmpty then .error .EmptyAggregationInput
  else .ok (⟨w.next_key⟩,
    ⟨w.ops ++ [aggOp org inputs round_idx w.next_key], w.next_key + 1⟩)

/-- Modelled from the spec: `TestDataOrganization.update_states`
(spec §4.1 `register_test`), whose class is not among the given sources.
It appends one test operation consuming the local state identified by
`traintuple_id`. -/
def TestDataOrganization.update_states (org : TestDataOrganization)
    (traintuple_id : Nat) (round_idx : Int) (w : World) : World :=
  ⟨w.ops ++ [testOp org traintuple_id round_idx], w.next_key⟩

/-- The strategy's rolling state (`FedAvg.__init__`): `_local_states` and
`_shared_states`, both `None` before any round. -/
structure FedAvg where
  _local_states : Option (List LocalStateRef)
  _shared_states : Option (List SharedStateRef)
deriving DecidableEq, Repr

/-- A freshly constructed `FedAvg()` strategy. -/
def FedAvg.init : FedAvg := ⟨none, none⟩

/-- The prior local state handed to the `i`-th train organization:
`self._local_states[i] if self._local_states is not None else None`
(fed_avg.py, line 218). -/
def localInput (prior_locals : Option (List LocalStateRef)) (i : Nat) :
    Option LocalStateRef :=
  match prior_locals with
  | none => none
  | some ls => ls.get? i

/-- The loop body of `FedAvg._perform_local_updates` (fed_avg.py, lines
206-223): iterate over the train organizations with their index `i`, calling
`update_states` for each and accumulating the returned references. -/
def localUpdatesGo (prior_locals : Option (List LocalStateRef))
    (current_aggregation : Option SharedStateRef) (round_idx : Int) :
    Nat → List TrainDataOrganization → List LocalStateRef →
    List SharedStateRef → World →
    List LocalStateRef × List SharedStateRef × World
  | _, [], accL, accS, w => (accL, accS, w)
  | i, org :: rest, accL, accS, w =>
    let r := org.update_states current_aggregation
      (localInput prior_locals i) round_idx w
    localUpdatesGo prior_locals current_aggregation round_idx (i + 1) rest
      (accL ++ [r.1]) (accS ++ [r.2.1]) r.2.2

/-- `FedAvg._perform_local_updates` (fed_avg.py, lines 188-226): one local
update on each train organization, then wholesale replacement of
`_local_states` and `_shared_states` with the collected references. -/
def FedAvg._perform_local_updates (strat : FedAvg)
    (train_data_organizations : List TrainDataOrganization)
    (current_aggregation : Option SharedStateRef) (round_idx : Int)
    (w : World) : FedAvg × World :=
  let r := localUpdatesGo strat._local_states current_aggregation round_idx 0
    train_data_organizations [] [] w
  (⟨some r.1, some r.2.1⟩, r.2.2)

/-- The errors a round can raise: the `ValueError` on a `None` aggregation
organization, the two initialization assertions (fed_avg.py), and the
`EmptyAggregationInput` propagated from the aggregation organization's
registration (spec §4.1). -/
inductive RoundError
  | AggregationOrganizationNone
  | AssertLocalStatesNone
  | AssertSharedStatesNone
  | EmptyAggregationInput
deriving DecidableEq, Repr

/-- `FedAvg.perform_round` (fed_avg.py, lines 63-105): reject a `None`
aggregation organization; on `round_idx == 1` assert both state fields are
still `None` and run the initialization pass (local updates at round 0 with
no incoming shared state); then register the aggregation of the current
`_shared_states` and run the local updates of this round with the
aggregated reference. -/
def FedAvg.perform_round (strat : FedAvg)
    (train_data_organizations : List TrainDataOrganization)
    (aggregation_organization : Option AggregationOrganization)
    (round_idx : Int) (w : World) : Except RoundError (FedAvg × World) :=
  match aggregation_organization with
  | none => .error .AggregationOrganizationNone
  | some agg_org =>
    let step1 : Except RoundError (FedAvg × World) :=
      if round_idx = 1 then
        if strat._local_states ≠ none then .error .AssertLocalStatesNone
        else if strat._shared_states ≠ none then .error .AssertSharedStatesNone
        else .ok (strat._perform_local_updates train_data_organizations none 0 w)
      else .ok (strat, w)
    match step1 with
    | .error e => .error e
    | .ok (strat1, w1) =>
      match agg_org.update_states strat1._shared_states round_idx w1 with
      | .error .EmptyAggregationInput => .error .EmptyAggregationInput
      | .ok (current_aggregation, w2) =>
        .ok (strat1._perform_local_updates train_data_organizations
          (some current_aggregation) round_idx w2)

/-- The exceptions `FedAvg.predict` can raise: the `NotImplementedError`
("Cannot test on a organization we did not train on for now."), the
assertion "Cannot predict if no training has been done beforehand." and the
`IndexError` of `self._local_states[organization_index]`. -/
inductive PredictError
  | NoMatchingTrainNode
  | NoTrainingDone
  | IndexError
deriving DecidableEq, Repr

/-- `FedAvg.predict` (fed_avg.py, lines 107-131): for each test
organization, find the train organizations sharing its id; fail when none
matches; otherwise take the first, locate its index in the train list
(`list.index`), assert training happened, and register a test operation on
the test organization consuming that index's current local state.  Python
mutates the queues as it goes, so the world reached before a raise is
returned alongside the error. -/
def FedAvg.predict (strat : FedAvg)
    (test_data_organizations : List TestDataOrganization)
    (train_data_organizations : List TrainDataOrganization)
    (round_idx : Int) (w : World) : World × Option PredictError :=
  match test_data_organizations with
  | [] => (w, none)
  | test_organization :: rest =>
    let matching_train_organizations := train_data_organizations.filter
      fun t => decide (t.organization_id = test_organization.organization_id)
    match matching_train_organizations with
    | [] => (w, some .NoMatchingTrainNode)
    | train_organization :: _ =>
      let organization_index := train_data_organizations.findIdx
        fun t => decide (t = train_organization)
      match strat._local_states with
      | none => (w, some .NoTrainingDone)
      | some ls =>
        match ls.get? organization_index with
        | none => (w, some .IndexError)
        | some local_state =>
          strat.predict rest train_data_organizations round_idx
            (test_organization.update_states local_state.key round_idx w)

/-- `substra.sdk.schemas.Permissions` as the driver builds it: a public flag
and the list of authorized participant ids. -/
structure Permissions where
  public : Bool
  authorized_ids : List OrgId
deriving DecidableEq, Repr

/-- `substra.sdk.schemas.ComputePlanSpec` restricted to the operation lists
the driver submits: composite train tuples, aggregate tuples and test
tuples. -/
structure ComputePlanSpec where
  composite_traintuples : List Operation
  aggregatetuples : List Operation
  testtuples : List Operation
deriving DecidableEq, Repr

/-- The observable calls `execute_experiment` makes, in order: the strategy
calls, the per-node operation registrations (with the permissions they are
given) and the single `client.add_compute_plan` submission. -/
inductive DriverEvent
  | performRoundCall (round_idx : Nat)
  | predictCall
  | registerOperationsCall (node_id : OrgId) (permissions : Permissions)
  | addComputePlanCall (plan : ComputePlanSpec)
deriving DecidableEq, Repr

/-- An error propagating out of `execute_experiment`'s graph construction. -/
inductive ExperimentError
  | roundError (e : RoundError)
  | predictError (e : PredictError)
deriving DecidableEq, Repr

/-- The permission set of `execute_experiment` (experiment.py, lines 69-74):
`public=False` and the deduplicated union of the aggregation node's id and
the train nodes' ids (`list(set([aggregation_node.node_id] + [node.node_id
for node in train_data_nodes]))`). -/
def experimentPermissions (aggregation_node : AggregationOrganization)
    (train_data_nodes : List TrainDataOrganization) : Permissions :=
  ⟨false, (aggregation_node.organization_id ::
    train_data_nodes.map (·.organization_id)).dedup⟩

/-- The `for _ in range(num_rounds)` loop of `execute_experiment`
(experiment.py, lines 53-58), threading the strategy state and recording one
`performRoundCall` event per call.  Modelled from the spec: the round
counter lives in the `Strategy` base class, which is not among the given
sources; it starts at this strategy's origin 1 and increments once per
`perform_round` call (spec §3, "Round counter"). -/
def roundsLoop (train_data_nodes : List TrainDataOrganization)
    (aggregation_node : Option AggregationOrganization) :
    FedAvg → Nat → Nat → World → List DriverEvent →
    List DriverEvent × Except RoundError (FedAvg × World)
  | strat, _, 0, w, tr => (tr, .ok (strat, w))
  | strat, r, n + 1, w, tr =>
    let tr := tr ++ [.performRoundCall r]
    match strat.perform_round train_data_nodes aggregation_node (r : Int) w with
    | .error e => (tr, .error e)
    | .ok (strat1, w1) => roundsLoop train_data_nodes aggregation_node strat1
        (r + 1) n w1 tr

/-- `execute_experiment` (experiment.py, lines 11-102): run
`strategy.perform_round` `num_rounds` times, then `strategy.predict` once;
only then compute the permissions, register every node's operations, and
submit the whole graph — partitioned by kind into composite train tuples,
aggregate tuples and test tuples — as one `add_compute_plan` call. -/
def execute_experiment (strat : FedAvg)
    (train_data_nodes : List TrainDataOrganization)
    (test_data_nodes : List TestDataOrganization)
    (aggregation_node : AggregationOrganization) (num_rounds : Nat)
    (w : World) :
    List DriverEvent × Except ExperimentError (ComputePlanSpec × World) :=
  match roundsLoop train_data_nodes (some aggregation_node) strat 1 num_rounds
      w [] with
  | (tr, .error e) => (tr, .error (.roundError e))
  | (tr, .ok (strat1, w1)) =>
    let tr := tr ++ [.predictCall]
    match strat1.predict test_data_nodes train_data_nodes (num_rounds : Int)
        w1 with
    | (_, some e) => (tr, .error (.predictError e))
    | (w2, none) =>
      let permissions := experimentPermissions aggregation_node
        train_data_nodes
      let tr := tr ++
        train_data_nodes.map
          (fun n => .registerOperationsCall n.organization_id permissions) ++
        test_data_nodes.map
          (fun n => .registerOperationsCall n.organization_id permissions) ++
        [.registerOperationsCall aggregation_node.organization_id permissions]
      let plan : ComputePlanSpec :=
        { composite_traintuples := w2.ops.filter fun op =>
            decide (op.kind = .train)
          aggregatetuples := w2.ops.filter fun op =>
            decide (op.kind = .aggregate)
          testtuples := w2.ops.filter fun op => decide (op.kind = .test) }
      (tr ++ [.addComputePlanCall plan], .ok (plan, w2))

/-- Whether an `Except` value is a success. -/
def exceptOk {ε α : Type} : Except ε α → Bool
  | .ok _ => true
  | .error _ => false

/-- Decidable equality of `Except` results, for evaluating the model on
concrete inputs. -/
instance exceptDecEq {ε α : Type} [DecidableEq ε] [DecidableEq α] :
    DecidableEq (Except ε α)
  | .error e, .error f =>
    if h : e = f then .isTrue (by rw [h])
    else .isFalse (fun hh => h (Except.error.inj hh))
  | .error _, .ok _ => .isFalse (fun hh => nomatch hh)
  | .ok _, .error _ => .isFalse (fun hh => nomatch hh)
  | .ok a, .ok b =>
    if h : a = b then .isTrue (by rw [h])
    else .isFalse (fun hh => h (Except.ok.inj hh))

/-- Whether a driver event is the compute-plan submission. -/
def DriverEvent.isSubmit : DriverEvent → Bool
  | .addComputePlanCall _ => true
  | _ => false

/-- The train operations `localUpdatesGo` appends for the given organization
list when started at loop index `i` with key counter `k`: one train
operation per organization, in list order. -/
def trainOpsFrom (prior_locals : Option (List LocalStateRef))
    (current_aggregation : Option SharedStateRef) (round_idx : Int) :
    Nat → List TrainDataOrganization → Nat → List Operation
  | _, [], _ => []
  | i, org :: rest, k =>
    trainOp org current_aggregation (localInput prior_locals i) round_idx k ::
      trainOpsFrom prior_locals current_aggregation round_idx (i + 1) rest
        (k + 2)

/-! ## Theorems -/

lemma range_map_getD (l : List ℚ) :
    (List.range l.length).map (fun i => l.getD i 0) = l := by
  apply List.ext_getElem (by simp)
  intro n h1 h2
  simp only [List.getElem_map, List.getElem_range]
  rw [List.getD_eq_getElem l 0 h2]

lemma avg_shared_states_eval (s0 : FedAvgSharedState)
    (rest : List FedAvgSharedState)
    (hall : ((s0 :: rest).all fun s =>
      decide (s.parameters_update.length = s0.parameters_update.length)) =
        true)
    (hN : ((s0 :: rest).map (·.n_samples)).sum ≠ 0) :
    avg_shared_states (s0 :: rest) = .ok
      ⟨(List.range s0.parameters_update.length).map fun idx =>
        ((s0 :: rest).map fun s => s.parameters_update.getD idx 0 *
          ((s.n_samples : ℚ) /
            ((((s0 :: rest).map (·.n_samples)).sum : Nat) : ℚ))).sum⟩ := by
  simp only [avg_shared_states]
  rw [if_neg (by simp [hall]), if_neg (fun h => hN h.1)]

/-- C1: for a non-empty sequence of shared-state records whose delta vectors
all have length `L` and whose total sample count `N` is positive,
`avg_shared_states` returns a single record whose vector has length `L` and
whose `i`-th position is `Σ_k delta_k[i] * (n_k / N)`, each delta multiplied
by its own weight and the products then summed; the output record (of type
`FedAvgAveragedState`) has no sample-count field. -/
theorem avg_shared_states_weighted_mean (s0 : FedAvgSharedState)
    (rest : List FedAvgSharedState) (L : Nat)
    (hlen : ∀ s ∈ s0 :: rest, s.parameters_update.length = L)
    (hN : 0 < ((s0 :: rest).map (·.n_samples)).sum) :
    ∃ r, avg_shared_states (s0 :: rest) = .ok r ∧
      r.avg_parameters_update.length = L ∧
      ∀ i < L, r.avg_parameters_update.getD i 0 =
        ((s0 :: rest).map fun s => s.parameters_update.getD i 0 *
          ((s.n_samples : ℚ) /
            ((((s0 :: rest).map (·.n_samples)).sum : Nat) : ℚ))).sum := by
  have h0 : s0.parameters_update.length = L := hlen s0 (List.mem_cons_self _ _)
  have hall : ((s0 :: rest).all fun s =>
      decide (s.parameters_update.length = s0.parameters_update.length)) =
        true := by
    rw [List.all_eq_true]
    intro s hs
    rw [decide_eq_true_eq, hlen s hs, h0]
  refine ⟨_, avg_shared_states_eval s0 rest hall (Nat.pos_iff_ne_zero.mp hN),
    ?_, ?_⟩
  · simp [h0]
  · intro i hi
    rw [List.getD_eq_getElem _ _ (by simp [h0, hi])]
    simp only [List.getElem_map, List.getElem_range]

/-- C1 witness: the concrete case — `{delta=[3,3,3], n=20}` and
`{delta=[6,6,6], n=40}` average to `[5,5,5]` (weights 1/3 and 2/3). -/
theorem avg_shared_states_weighted_mean_witness :
    (∀ s ∈ ([⟨[3, 3, 3], 20⟩, ⟨[6, 6, 6], 40⟩] : List FedAvgSharedState),
      s.parameters_update.length = 3) ∧
    (0 < (([⟨[3, 3, 3], 20⟩, ⟨[6, 6, 6], 40⟩] :
      List FedAvgSharedState).map (·.n_samples)).sum) ∧
    (∃ r, avg_shared_states [⟨[3, 3, 3], 20⟩, ⟨[6, 6, 6], 40⟩] = .ok r ∧
      r.avg_parameters_update.length = 3 ∧
      ∀ i < 3, r.avg_parameters_update.getD i 0 =
        (([⟨[3, 3, 3], 20⟩, ⟨[6, 6, 6], 40⟩] :
            List FedAvgSharedState).map fun s =>
          s.parameters_update.getD i 0 * ((s.n_samples : ℚ) /
            ((((([⟨[3, 3, 3], 20⟩, ⟨[6, 6, 6], 40⟩] :
              List FedAvgSharedState)).map (·.n_samples)).sum : Nat) :
                ℚ))).sum) ∧
    avg_shared_states [⟨[3, 3, 3], 20⟩, ⟨[6, 6, 6], 40⟩] = .ok ⟨[5, 5, 5]⟩ :=
  ⟨by decide, by decide,
    avg_shared_states_weighted_mean ⟨[3, 3, 3], 20⟩ [⟨[6, 6, 6], 40⟩] 3
      (by decide) (by decide), by
        rw [avg_shared_states_eval _ _ (by decide) (by decide)]
        simp [List.range_succ]
        norm_num⟩

/-- C2: `avg_shared_states` on the empty sequence fails with `EmptyInput`,
and on a non-empty sequence whose delta vectors do not all have the same
length it fails with `ShapeMismatch`; in both cases no aggregated record is
produced. -/
theorem avg_shared_states_error_cases :
    (avg_shared_states [] = .error .EmptyInput ∧
      ∀ r, avg_shared_states [] ≠ .ok r) ∧
    ∀ s0 rest,
      (¬ ∀ s ∈ s0 :: rest,
        s.parameters_update.length = s0.parameters_update.length) →
      avg_shared_states (s0 :: rest) = .error .ShapeMismatch ∧
      ∀ r, avg_shared_states (s0 :: rest) ≠ .ok r := by
  refine ⟨⟨rfl, by simp [avg_shared_states]⟩, ?_⟩
  intro s0 rest h
  have he : avg_shared_states (s0 :: rest) = .error .ShapeMismatch := by
    simp only [avg_shared_states]
    rw [if_pos]
    simp only [List.all_eq_true, decide_eq_true_eq]
    exact h
  exact ⟨he, by simp [he]⟩

/-- C2 witness: the error cases at concrete inputs. -/
theorem avg_shared_states_error_cases_witness :
    avg_shared_states [] = .error .EmptyInput ∧
    avg_shared_states [⟨[1], 1⟩, ⟨[1, 2], 1⟩] = .error .ShapeMismatch :=
  ⟨avg_shared_states_error_cases.1.1,
    (avg_shared_states_error_cases.2 ⟨[1], 1⟩ [⟨[1, 2], 1⟩] (by decide)).1⟩

/-- C6: on a single-record input with a positive sample count,
`avg_shared_states` returns that record's parameter vector unchanged
(the weight is `n / n = 1`). -/
theorem avg_shared_states_singleton (s : FedAvgSharedState)
    (h : 0 < s.n_samples) :
    avg_shared_states [s] = .ok ⟨s.parameters_update⟩ := by
  have hn0 : s.n_samples ≠ 0 := Nat.pos_iff_ne_zero.mp h
  have hn : (s.n_samples : ℚ) ≠ 0 := by exact_mod_cast hn0
  have hsum : (([s].map (·.n_samples)).sum : Nat) ≠ 0 := by simpa using hn0
  rw [avg_shared_states_eval s [] (by simp) hsum]
  refine congrArg Except.ok (congrArg FedAvgAveragedState.mk ?_)
  have hfun : ∀ idx, ([s].map fun t => t.parameters_update.getD idx 0 *
      ((t.n_samples : ℚ) / ((([s].map (·.n_samples)).sum : Nat) : ℚ))).sum =
      s.parameters_update.getD idx 0 := by
    intro idx
    simp [div_self hn]
  calc (List.range s.parameters_update.length).map (fun idx =>
        ([s].map fun t => t.parameters_update.getD idx 0 *
          ((t.n_samples : ℚ) /
            ((([s].map (·.n_samples)).sum : Nat) : ℚ))).sum)
      = (List.range s.parameters_update.length).map
          (fun idx => s.parameters_update.getD idx 0) :=
        List.map_congr_left fun i _ => hfun i
    _ = s.parameters_update := range_map_getD _

/-- C6 witness: identity on the single record `{delta = [7, 8], n = 5}`. -/
theorem avg_shared_states_singleton_witness :
    0 < (5 : Nat) ∧ avg_shared_states [⟨[7, 8], 5⟩] = .ok ⟨[7, 8]⟩ :=
  ⟨by decide, avg_shared_states_singleton ⟨[7, 8], 5⟩ (by decide)⟩

/-- C8: running FedAvg's `perform_round` with a missing (`None`) aggregation
organization raises the configuration `ValueError` first, before any
round-0 work: no success value — hence no training registration and no
state mutation — is produced, whatever the strategy state, the node list,
the round index and the world. -/
theorem perform_round_none_aggregation (strat : FedAvg)
    (orgs : List TrainDataOrganization) (round_idx : Int) (w : World) :
    FedAvg.perform_round strat orgs none round_idx w =
      .error .AggregationOrganizationNone ∧
    exceptOk (FedAvg.perform_round strat orgs none round_idx w) = false :=
  ⟨rfl, rfl⟩

/-- C10: calling `predict` before any training was performed
(`_local_states` still `None`), with a non-empty test list in which every
test organization has a matching train organization, fails with the
"training has been done beforehand" assertion and registers no test
operation: the world is returned unchanged. -/
theorem predict_before_training (strat : FedAvg)
    (test_orgs : List TestDataOrganization)
    (train_orgs : List TrainDataOrganization) (round_idx : Int) (w : World)
    (hnone : strat._local_states = none) (hne : test_orgs ≠ [])
    (hmatch : ∀ t ∈ test_orgs, train_orgs.filter
      (fun x => decide (x.organization_id = t.organization_id)) ≠ []) :
    strat.predict test_orgs train_orgs round_idx w =
      (w, some .NoTrainingDone) := by
  match test_orgs, hne with
  | t :: rest, _ =>
    have h1 := hmatch t (List.mem_cons_self _ _)
    cases hf : train_orgs.filter
        (fun x => decide (x.organization_id = t.organization_id)) with
    | nil => exact absurd hf h1
    | cons tr0 rest2 => simp only [FedAvg.predict, hf, hnone]

/-- C10 witness: a fresh strategy, one test organization matching the one
train organization. -/
theorem predict_before_training_witness :
    FedAvg.predict FedAvg.init [⟨"x"⟩] [⟨"x", ["d"]⟩] 1 ⟨[], 0⟩ =
      (⟨[], 0⟩, some .NoTrainingDone) :=
  predict_before_training FedAvg.init [⟨"x"⟩] [⟨"x", ["d"]⟩] 1 ⟨[], 0⟩ rfl
    (by decide) (by decide)

/-- C5: a test organization whose participant id matches no train
organization makes `predict` fail with the `NotImplementedError`
(`NoMatchingTrainNode`), and no test operation is ever registered for that
organization (provided training was done, so that no other failure
preempts the check). -/
theorem predict_no_matching_train_node (strat : FedAvg)
    (test_orgs : List TestDataOrganization)
    (train_orgs : List TrainDataOrganization) (round_idx : Int) (w : World)
    (t : TestDataOrganization) (ls : List LocalStateRef)
    (ht : t ∈ test_orgs)
    (hzero : train_orgs.filter
      (fun x => decide (x.organization_id = t.organization_id)) = [])
    (hls : strat._local_states = some ls)
    (hlen : train_orgs.length ≤ ls.length) :
    (strat.predict test_orgs train_orgs round_idx w).2 =
      some .NoMatchingTrainNode ∧
    ∀ op ∈ (strat.predict test_orgs train_orgs round_idx w).1.ops,
      op.kind = .test → op.org_id = t.organization_id → op ∈ w.ops := by
  induction test_orgs generalizing w with
  | nil => cases ht
  | cons t' rest ih =>
    cases hf : train_orgs.filter
        (fun x => decide (x.organization_id = t'.organization_id)) with
    | nil =>
      simp only [FedAvg.predict, hf]
      exact ⟨trivial, fun op hop _ _ => hop⟩
    | cons tr0 rest2 =>
      have htne : t'.organization_id ≠ t.organization_id := by
        intro he
        have hpe : (fun x : TrainDataOrganization =>
            decide (x.organization_id = t'.organization_id)) =
            (fun x => decide (x.organization_id = t.organization_id)) := by
          funext x
          rw [he]
        rw [hpe, hzero] at hf
        cases hf
      have htr : t ∈ rest := by
        rcases List.mem_cons.mp ht with rfl | hmem
        · exact absurd rfl htne
        · exact hmem
      have htr0 : tr0 ∈ train_orgs ∧
          decide (tr0.organization_id = t'.organization_id) = true :=
        List.mem_filter.mp (hf ▸ List.mem_cons_self tr0 rest2)
      have hidx : train_orgs.findIdx (fun x => decide (x = tr0)) <
          train_orgs.length :=
        List.findIdx_lt_length_of_exists ⟨tr0, htr0.1, by simp⟩
      have hidx' : train_orgs.findIdx (fun x => decide (x = tr0)) <
          ls.length := Nat.lt_of_lt_of_le hidx hlen
      have hget : ls.get? (train_orgs.findIdx (fun x => decide (x = tr0))) =
          some (ls.get ⟨_, hidx'⟩) := List.get?_eq_get hidx'
      have hstep : strat.predict (t' :: rest) train_orgs round_idx w =
          strat.predict rest train_orgs round_idx
            (t'.update_states (ls.get ⟨_, hidx'⟩).key round_idx w) := by
        simp only [FedAvg.predict, hf, hls, hget]
      rw [hstep]
      obtain ⟨ih1, ih2⟩ := ih
        (t'.update_states (ls.get ⟨_, hidx'⟩).key round_idx w) htr
      refine ⟨ih1, fun op hop hk horg => ?_⟩
      have := ih2 op hop hk horg
      rcases List.mem_append.mp this with hmem | hmem
      · exact hmem
      · exfalso
        have hop_org : op.org_id = t'.organization_id := by
          rcases List.mem_singleton.mp hmem with rfl
          rfl
        exact htne (hop_org ▸ horg)

/-- C5 witness: one test organization `"x"` with no matching train
organization, after training on `"a"`. -/
theorem predict_no_matching_train_node_witness :
    (FedAvg.predict ⟨some [⟨0⟩], none⟩ [⟨"x"⟩] [⟨"a", []⟩] 1 ⟨[], 0⟩).2 =
      some .NoMatchingTrainNode ∧
    ∀ op ∈ (FedAvg.predict ⟨some [⟨0⟩], none⟩ [⟨"x"⟩] [⟨"a", []⟩] 1
        ⟨[], 0⟩).1.ops,
      op.kind = .test →
        op.org_id = (⟨"x"⟩ : TestDataOrganization).organization_id →
        op ∈ (⟨[], 0⟩ : World).ops :=
  predict_no_matching_train_node ⟨some [⟨0⟩], none⟩ [⟨"x"⟩] [⟨"a", []⟩] 1
    ⟨[], 0⟩ ⟨"x"⟩ [⟨0⟩] (by decide) (by decide) rfl (by decide)

lemma findIdx_eq_of_filter_head {α : Type} [DecidableEq α] (p : α → Bool) :
    ∀ (l : List α) (a : α) (rest : List α), l.filter p = a :: rest →
      l.findIdx (fun x => decide (x = a)) = l.findIdx p := by
  intro l
  induction l with
  | nil =>
    intro a rest h
    simp at h
  | cons x xs ih =>
    intro a rest h
    rw [List.filter_cons] at h
    cases hpx : p x with
    | true =>
      rw [if_pos hpx] at h
      have hxa : x = a := (List.cons.inj h).1
      rw [List.findIdx_cons, List.findIdx_cons, hpx, hxa]
      simp
    | false =>
      rw [if_neg (by simp [hpx])] at h
      have ha : p a = true :=
        (List.mem_filter.mp (h ▸ List.mem_cons_self a rest)).2
      have hxa : ¬ (x = a) := fun he => by
        rw [he, ha] at hpx
        cases hpx
      rw [List.findIdx_cons, List.findIdx_cons, hpx]
      simp [hxa, ih a rest h]

/-- C9: when at least two train organizations share the test organization's
id, `predict` does not fail: it selects the first matching train
organization in list order (the head of the filtered list, whose position
is the first index whose id matches) and registers one test operation
consuming that organization's current local-state reference. -/
theorem predict_first_matching (strat : FedAvg) (t : TestDataOrganization)
    (train_orgs : List TrainDataOrganization) (round_idx : Int) (w : World)
    (tr0 : TrainDataOrganization) (rest : List TrainDataOrganization)
    (ls : List LocalStateRef)
    (hfil : train_orgs.filter
      (fun x => decide (x.organization_id = t.organization_id)) =
        tr0 :: rest)
    (hmore : rest ≠ [])
    (hls : strat._local_states = some ls)
    (hlen : train_orgs.length ≤ ls.length) :
    ∃ local_state,
      ls.get? (train_orgs.findIdx
        (fun x => decide (x.organization_id = t.organization_id))) =
          some local_state ∧
      strat.predict [t] train_orgs round_idx w =
        (t.update_states local_state.key round_idx w, none) := by
  have hidxeq : train_orgs.findIdx (fun x => decide (x = tr0)) =
      train_orgs.findIdx
        (fun x => decide (x.organization_id = t.organization_id)) :=
    findIdx_eq_of_filter_head _ train_orgs tr0 rest hfil
  have htr0 : tr0 ∈ train_orgs :=
    (List.mem_filter.mp (hfil ▸ List.mem_cons_self tr0 rest)).1
  have hidx : train_orgs.findIdx (fun x => decide (x = tr0)) <
      train_orgs.length :=
    List.findIdx_lt_length_of_exists ⟨tr0, htr0, by simp⟩
  have hidx' : train_orgs.findIdx (fun x => decide (x = tr0)) < ls.length :=
    Nat.lt_of_lt_of_le hidx hlen
  have hget : ls.get? (train_orgs.findIdx (fun x => decide (x = tr0))) =
      some (ls.get ⟨_, hidx'⟩) := List.get?_eq_get hidx'
  refine ⟨ls.get ⟨_, hidx'⟩, by rw [← hidxeq]; exact hget, ?_⟩
  simp only [FedAvg.predict, hfil, hls, hget]

/-- C9 witness: two train organizations with id `"x"`; the first one (list
position 1) is selected and its local state `⟨11⟩` is consumed. -/
theorem predict_first_matching_witness :
    ∃ local_state,
      ([⟨10⟩, ⟨11⟩, ⟨12⟩] : List LocalStateRef).get?
        (([⟨"a", []⟩, ⟨"x", ["d1"]⟩, ⟨"x", ["d2"]⟩] :
          List TrainDataOrganization).findIdx
            (fun x => decide (x.organization_id =
              (⟨"x"⟩ : TestDataOrganization).organization_id))) =
          some local_state ∧
      FedAvg.predict ⟨some [⟨10⟩, ⟨11⟩, ⟨12⟩], none⟩ [⟨"x"⟩]
        [⟨"a", []⟩, ⟨"x", ["d1"]⟩, ⟨"x", ["d2"]⟩] 2 ⟨[], 13⟩ =
        (TestDataOrganization.update_states ⟨"x"⟩ local_state.key 2
          ⟨[], 13⟩, none) :=
  predict_first_matching ⟨some [⟨10⟩, ⟨11⟩, ⟨12⟩], none⟩ ⟨"x"⟩
    [⟨"a", []⟩, ⟨"x", ["d1"]⟩, ⟨"x", ["d2"]⟩] 2 ⟨[], 13⟩ ⟨"x", ["d1"]⟩
    [⟨"x", ["d2"]⟩] [⟨10⟩, ⟨11⟩, ⟨12⟩] (by decide) (by decide) rfl
    (by decide)

lemma localUpdatesGo_char (pl : Option (List LocalStateRef))
    (ca : Option SharedStateRef) (r : Int) :
    ∀ (orgs : List TrainDataOrganization) (i : Nat)
      (accL : List LocalStateRef) (accS : List SharedStateRef) (w : World),
      ∃ ls ss,
        localUpdatesGo pl ca r i orgs accL accS w =
          (accL ++ ls, accS ++ ss,
            ⟨w.ops ++ trainOpsFrom pl ca r i orgs w.next_key,
              w.next_key + 2 * orgs.length⟩) ∧
        ls.length = orgs.length ∧ ss.length = orgs.length := by
  intro orgs
  induction orgs with
  | nil =>
    intro i accL accS w
    refine ⟨[], [], ?_, rfl, rfl⟩
    simp [localUpdatesGo, trainOpsFrom]
  | cons org rest ih =>
    intro i accL accS w
    obtain ⟨ls, ss, heq, hl, hs⟩ := ih (i + 1) (accL ++ [⟨w.next_key⟩])
      (accS ++ [⟨w.next_key + 1⟩])
      ⟨w.ops ++ [trainOp org ca (localInput pl i) r w.next_key],
        w.next_key + 2⟩
    refine ⟨⟨w.next_key⟩ :: ls, ⟨w.next_key + 1⟩ :: ss, ?_, by simp [hl],
      by simp [hs]⟩
    simp only [localUpdatesGo, TrainDataOrganization.update_states]
    rw [heq]
    simp only [trainOpsFrom, List.append_assoc, List.singleton_append,
      List.cons_append, List.length_cons, Prod.mk.injEq, World.mk.injEq]
    refine ⟨rfl, rfl, rfl, by ring⟩

lemma perform_local_updates_char (strat : FedAvg)
    (orgs : List TrainDataOrganization) (ca : Option SharedStateRef)
    (r : Int) (w : World) :
    ∃ ls ss,
      strat._perform_local_updates orgs ca r w =
        (⟨some ls, some ss⟩,
          ⟨w.ops ++ trainOpsFrom strat._local_states ca r 0 orgs w.next_key,
            w.next_key + 2 * orgs.length⟩) ∧
      ls.length = orgs.length ∧ ss.length = orgs.length := by
  obtain ⟨ls, ss, heq, hl, hs⟩ :=
    localUpdatesGo_char strat._local_states ca r orgs 0 [] [] w
  refine ⟨ls, ss, ?_, hl, hs⟩
  simp [FedAvg._perform_local_updates, heq]

lemma trainOpsFrom_length (pl : Option (List LocalStateRef))
    (ca : Option SharedStateRef) (r : Int) :
    ∀ (orgs : List TrainDataOrganization) (i k : Nat),
      (trainOpsFrom pl ca r i orgs k).length = orgs.length := by
  intro orgs
  induction orgs with
  | nil => intro i k; rfl
  | cons org rest ih =>
    intro i k
    simp [trainOpsFrom, ih (i + 1) (k + 2)]

lemma trainOpsFrom_mem (pl : Option (List LocalStateRef))
    (ca : Option SharedStateRef) (r : Int) :
    ∀ (orgs : List TrainDataOrganization) (i k : Nat)
      (op : Operation), op ∈ trainOpsFrom pl ca r i orgs k →
      op.kind = .train ∧ op.input_shared = ca.map (·.key) ∧
        op.round_idx = r := by
  intro orgs
  induction orgs with
  | nil =>
    intro i k op hop
    cases hop
  | cons org rest ih =>
    intro i k op hop
    rcases List.mem_cons.mp hop with rfl | hmem
    · exact ⟨rfl, rfl, rfl⟩
    · exact ih (i + 1) (k + 2) op hmem

/-- C3: on the first round (`round_idx = 1`, from a fresh strategy, with at
least one train organization so that the subsequent aggregation has a
payload), the initialization pass trains once per train organization with
no incoming shared state — the first `orgs.length` operations appended to
the graph are exactly one train operation per organization and none of them
is an aggregation —, and it produces exactly one local-state reference and
one shared-state payload per organization before the aggregation is
registered. -/
theorem fedavg_round_one_initialization (orgs : List TrainDataOrganization)
    (agg : AggregationOrganization) (w : World) (horgs : orgs ≠ []) :
    ∃ strat' w',
      FedAvg.perform_round FedAvg.init orgs (some agg) 1 w =
        .ok (strat', w') ∧
      (∃ ls ss, (FedAvg.init._perform_local_updates orgs none 0 w).1 =
        ⟨some ls, some ss⟩ ∧ ls.length = orgs.length ∧
        ss.length = orgs.length) ∧
      (trainOpsFrom none none 0 0 orgs w.next_key).length = orgs.length ∧
      (∀ op ∈ trainOpsFrom none none 0 0 orgs w.next_key,
        op.kind = .train ∧ op.input_shared = none) ∧
      w'.ops.take (w.ops.length + orgs.length) =
        w.ops ++ trainOpsFrom none none 0 0 orgs w.next_key ∧
      ∀ op ∈ (w'.ops.take (w.ops.length + orgs.length)).drop w.ops.length,
        op.kind ≠ .aggregate := by
  have hinit : FedAvg.init._local_states = none := rfl
  obtain ⟨ls, ss, h1, hl, hs⟩ :=
    perform_local_updates_char FedAvg.init orgs none 0 w
  rw [hinit] at h1
  obtain ⟨ls2, ss2, h2, hl2, hs2⟩ := perform_local_updates_char
    ⟨some ls, some ss⟩ orgs (some ⟨w.next_key + 2 * orgs.length⟩) 1
    ⟨(w.ops ++ trainOpsFrom none none 0 0 orgs w.next_key) ++
      [aggOp agg (some ss) 1 (w.next_key + 2 * orgs.length)],
      w.next_key + 2 * orgs.length + 1⟩
  have hmain : FedAvg.perform_round FedAvg.init orgs (some agg) 1 w =
      .ok (⟨some ls2, some ss2⟩,
        ⟨((w.ops ++ trainOpsFrom none none 0 0 orgs w.next_key) ++
          [aggOp agg (some ss) 1 (w.next_key + 2 * orgs.length)]) ++
          trainOpsFrom (some ls) (some ⟨w.next_key + 2 * orgs.length⟩) 1 0
            orgs (w.next_key + 2 * orgs.length + 1),
          w.next_key + 2 * orgs.length + 1 + 2 * orgs.length⟩) := by
    have hs0 : FedAvg.init._shared_states = none := rfl
    have hssne : ss ≠ [] := by
      intro hnil
      rw [hnil] at hs
      exact horgs (List.length_eq_zero.mp hs.symm)
    simp only [FedAvg.perform_round, hinit, hs0]
    rw [h1]
    simp only at h2 ⊢
    simp only [ne_eq, not_true_eq_false, if_false, if_true, ite_true,
      ite_false] at h2 ⊢
    simp only [AggregationOrganization.update_states, Option.getD_some]
    rw [if_neg (by simp [List.isEmpty_iff, hssne])]
    simp only at h2 ⊢
    rw [h2]
  have hlen : w.ops.length + orgs.length =
      (w.ops ++ trainOpsFrom none none 0 0 orgs w.next_key).length := by
    simp [trainOpsFrom_length]
  have htake : (((w.ops ++ trainOpsFrom none none 0 0 orgs w.next_key) ++
      [aggOp agg (some ss) 1 (w.next_key + 2 * orgs.length)]) ++
      trainOpsFrom (some ls) (some ⟨w.next_key + 2 * orgs.length⟩) 1 0 orgs
        (w.next_key + 2 * orgs.length + 1)).take
      (w.ops.length + orgs.length) =
      w.ops ++ trainOpsFrom none none 0 0 orgs w.next_key := by
    rw [List.append_assoc (w.ops ++ trainOpsFrom none none 0 0 orgs
      w.next_key), hlen, List.take_left]
  refine ⟨_, _, hmain, ⟨ls, ss, by rw [h1], hl, hs⟩,
    trainOpsFrom_length none none 0 orgs 0 w.next_key,
    fun op hop => ⟨(trainOpsFrom_mem none none 0 orgs 0 w.next_key op hop).1,
      (trainOpsFrom_mem none none 0 orgs 0 w.next_key op hop).2.1⟩,
    htake, ?_⟩
  intro op hop
  rw [htake, List.drop_left] at hop
  have hk0 := (trainOpsFrom_mem none none 0 orgs 0 w.next_key op hop).1
  intro hk
  rw [hk0] at hk
  cases hk

/-- C3 witness: round 1 from a fresh strategy over the one train
organization `"o"` — the first appended operation is its train op and no
aggregate op precedes it. -/
theorem fedavg_round_one_initialization_witness :
    ([(⟨"o", ["d"]⟩ : TrainDataOrganization)] ≠ []) ∧
    ∃ strat' w',
      FedAvg.perform_round FedAvg.init [⟨"o", ["d"]⟩] (some ⟨"agg"⟩) 1
        ⟨[], 0⟩ = .ok (strat', w') ∧
      (∃ ls ss, (FedAvg.init._perform_local_updates [⟨"o", ["d"]⟩] none 0
        ⟨[], 0⟩).1 = ⟨some ls, some ss⟩ ∧ ls.length = 1 ∧
        ss.length = 1) ∧
      (trainOpsFrom none none 0 0 [⟨"o", ["d"]⟩] 0).length = 1 ∧
      (∀ op ∈ trainOpsFrom none none 0 0 [⟨"o", ["d"]⟩] 0,
        op.kind = .train ∧ op.input_shared = none) ∧
      w'.ops.take 1 = trainOpsFrom none none 0 0 [⟨"o", ["d"]⟩] 0 ∧
      ∀ op ∈ (w'.ops.take 1).drop 0, op.kind ≠ .aggregate :=
  ⟨by decide,
    fedavg_round_one_initialization [⟨"o", ["d"]⟩] ⟨"agg"⟩ ⟨[], 0⟩
      (by decide)⟩

lemma roundsLoop_ok_trace (tn : List TrainDataOrganization)
    (agg : Option AggregationOrganization) :
    ∀ (n : Nat) (strat : FedAvg) (r : Nat) (w : World)
      (tr tr' : List DriverEvent) (s' : FedAvg) (w' : World),
      roundsLoop tn agg strat r n w tr = (tr', .ok (s', w')) →
      tr' = tr ++ (List.range n).map
        (fun i => DriverEvent.performRoundCall (r + i)) := by
  intro n
  induction n with
  | zero =>
    intro strat r w tr tr' s' w' h
    simp only [roundsLoop] at h
    injection h with h1 h2
    subst h1
    simp
  | succ n ih =>
    intro strat r w tr tr' s' w' h
    simp only [roundsLoop] at h
    cases hpr : FedAvg.perform_round strat tn agg (r : Int) w with
    | error e =>
      rw [hpr] at h
      injection h with h1 h2
      cases h2
    | ok p =>
      obtain ⟨s1, w1⟩ := p
      rw [hpr] at h
      have htr := ih s1 (r + 1) w1 (tr ++ [DriverEvent.performRoundCall r])
        tr' s' w' h
      rw [htr, List.range_succ_eq_map]
      simp only [List.map_cons, List.map_map, Function.comp,
        List.append_assoc, List.singleton_append]
      refine congrArg _ (congrArg _ ?_)
      refine List.map_congr_left fun i _ => ?_
      have hadd : r + 1 + i = r + (i + 1) := by omega
      rw [hadd]
      rfl

lemma execute_experiment_ok (strat : FedAvg)
    (tn : List TrainDataOrganization) (ten : List TestDataOrganization)
    (agg : AggregationOrganization) (nr : Nat) (w : World)
    (tr : List DriverEvent) (plan : ComputePlanSpec) (w' : World)
    (h : execute_experiment strat tn ten agg nr w = (tr, .ok (plan, w'))) :
    tr = (List.range nr).map
        (fun i => DriverEvent.performRoundCall (1 + i)) ++
      [DriverEvent.predictCall] ++
      tn.map (fun n => DriverEvent.registerOperationsCall
        n.organization_id (experimentPermissions agg tn)) ++
      ten.map (fun n => DriverEvent.registerOperationsCall
        n.organization_id (experimentPermissions agg tn)) ++
      [DriverEvent.registerOperationsCall agg.organization_id
        (experimentPermissions agg tn)] ++
      [DriverEvent.addComputePlanCall plan] ∧
    plan = ⟨w'.ops.filter (fun op => decide (op.kind = .train)),
      w'.ops.filter (fun op => decide (op.kind = .aggregate)),
      w'.ops.filter (fun op => decide (op.kind = .test))⟩ := by
  simp only [execute_experiment] at h
  cases hrl : roundsLoop tn (some agg) strat 1 nr w [] with
  | mk tr1 res =>
    rw [hrl] at h
    cases res with
    | error e => cases h
    | ok p =>
      obtain ⟨strat1, w1⟩ := p
      simp only [] at h
      cases hpd : strat1.predict ten tn (nr : Int) w1 with
      | mk w2 perr =>
        rw [hpd] at h
        cases perr with
        | some e => cases h
        | none =>
          injection h with h1 h2
          injection h2 with h3
          injection h3 with hplan hw
          subst hplan
          subst hw
          have htr1 := roundsLoop_ok_trace tn (some agg) nr strat 1 w []
            tr1 strat1 w1 hrl
          constructor
          · rw [← h1, htr1]
            simp [List.append_assoc]
          · rfl

/-- C4: on a successful construction, the driver's observable behaviour is:
`perform_round` called exactly `num_rounds` times with the round index
increasing from 1, then `predict` called exactly once, then the per-node
registrations, and finally one single `add_compute_plan` submission — the
last event of the run — whose plan is the full operation set partitioned by
kind; no submission ever happens earlier. -/
theorem execute_experiment_single_submission (strat : FedAvg)
    (tn : List TrainDataOrganization) (ten : List TestDataOrganization)
    (agg : AggregationOrganization) (nr : Nat) (w : World)
    (tr : List DriverEvent) (plan : ComputePlanSpec) (w' : World)
    (h : execute_experiment strat tn ten agg nr w = (tr, .ok (plan, w'))) :
    tr = (List.range nr).map
        (fun i => DriverEvent.performRoundCall (1 + i)) ++
      [DriverEvent.predictCall] ++
      tn.map (fun n => DriverEvent.registerOperationsCall
        n.organization_id (experimentPermissions agg tn)) ++
      ten.map (fun n => DriverEvent.registerOperationsCall
        n.organization_id (experimentPermissions agg tn)) ++
      [DriverEvent.registerOperationsCall agg.organization_id
        (experimentPermissions agg tn)] ++
      [DriverEvent.addComputePlanCall plan] ∧
    (tr.filter DriverEvent.isSubmit).length = 1 ∧
    tr.getLast? = some (DriverEvent.addComputePlanCall plan) ∧
    plan.composite_traintuples =
      w'.ops.filter (fun op => decide (op.kind = .train)) ∧
    plan.aggregatetuples =
      w'.ops.filter (fun op => decide (op.kind = .aggregate)) ∧
    plan.testtuples =
      w'.ops.filter (fun op => decide (op.kind = .test)) := by
  obtain ⟨htr, hplan⟩ := execute_experiment_ok strat tn ten agg nr w tr
    plan w' h
  refine ⟨htr, ?_, ?_, by rw [hplan], by rw [hplan], by rw [hplan]⟩
  · rw [htr]
    simp only [List.filter_append]
    have h1 : ((List.range nr).map
        (fun i => DriverEvent.performRoundCall (1 + i))).filter
        DriverEvent.isSubmit = [] := by
      rw [List.filter_eq_nil]
      intro a ha
      obtain ⟨i, -, rfl⟩ := List.mem_map.mp ha
      simp [DriverEvent.isSubmit]
    have h2 : ∀ (l : List TrainDataOrganization),
        (l.map (fun n => DriverEvent.registerOperationsCall
          n.organization_id (experimentPermissions agg tn))).filter
          DriverEvent.isSubmit = [] := by
      intro l
      rw [List.filter_eq_nil]
      intro a ha
      obtain ⟨x, -, rfl⟩ := List.mem_map.mp ha
      simp [DriverEvent.isSubmit]
    have h3 : ∀ (l : List TestDataOrganization),
        (l.map (fun n => DriverEvent.registerOperationsCall
          n.organization_id (experimentPermissions agg tn))).filter
          DriverEvent.isSubmit = [] := by
      intro l
      rw [List.filter_eq_nil]
      intro a ha
      obtain ⟨x, -, rfl⟩ := List.mem_map.mp ha
      simp [DriverEvent.isSubmit]
    rw [h1, h2 tn, h3 ten]
    simp [DriverEvent.isSubmit, List.filter]
  · rw [htr]
    exact List.getLast?_concat _

/-- C7: the permission set handed to every registration of a successful run
is one and the same object: non-public, with authorized ids exactly the
deduplicated union of the aggregation node's id and the train nodes' ids
(test-only participants are excluded). -/
theorem execute_experiment_uniform_permissions (strat : FedAvg)
    (tn : List TrainDataOrganization) (ten : List TestDataOrganization)
    (agg : AggregationOrganization) (nr : Nat) (w : World)
    (tr : List DriverEvent) (plan : ComputePlanSpec) (w' : World)
    (h : execute_experiment strat tn ten agg nr w = (tr, .ok (plan, w'))) :
    (∀ nid p, DriverEvent.registerOperationsCall nid p ∈ tr →
      p = experimentPermissions agg tn) ∧
    DriverEvent.registerOperationsCall agg.organization_id
      (experimentPermissions agg tn) ∈ tr ∧
    (experimentPermissions agg tn).public = false ∧
    (experimentPermissions agg tn).authorized_ids.Nodup ∧
    ∀ x, x ∈ (experimentPermissions agg tn).authorized_ids ↔
      (x = agg.organization_id ∨
        x ∈ tn.map (·.organization_id)) := by
  obtain ⟨htr, -⟩ := execute_experiment_ok strat tn ten agg nr w tr plan w' h
  refine ⟨?_, ?_, rfl, List.nodup_dedup _, ?_⟩
  · intro nid p hp
    rw [htr] at hp
    rcases List.mem_append.mp hp with hp | hp
    · rcases List.mem_append.mp hp with hp | hp
      · rcases List.mem_append.mp hp with hp | hp
        · rcases List.mem_append.mp hp with hp | hp
          · rcases List.mem_append.mp hp with hp | hp
            · obtain ⟨i, -, heq⟩ := List.mem_map.mp hp
              cases heq
            · cases List.mem_singleton.mp hp
          · obtain ⟨x, -, heq⟩ := List.mem_map.mp hp
            exact (DriverEvent.registerOperationsCall.inj heq).2.symm
        · obtain ⟨x, -, heq⟩ := List.mem_map.mp hp
          exact (DriverEvent.registerOperationsCall.inj heq).2.symm
      · exact (DriverEvent.registerOperationsCall.inj
          (List.mem_singleton.mp hp)).2
    · cases List.mem_singleton.mp hp
  · rw [htr]
    exact List.mem_append.mpr (Or.inl (List.mem_append.mpr
      (Or.inr (List.mem_singleton.mpr rfl))))
  · intro x
    simp [experimentPermissions, List.mem_dedup]

/-- C4 witness: a zero-round run over one train node and no test node —
the trace ends with the single submission. -/
theorem execute_experiment_single_submission_witness :
    (([DriverEvent.predictCall,
      DriverEvent.registerOperationsCall "a"
        (experimentPermissions ⟨"agg"⟩ [⟨"a", []⟩]),
      DriverEvent.registerOperationsCall "agg"
        (experimentPermissions ⟨"agg"⟩ [⟨"a", []⟩]),
      DriverEvent.addComputePlanCall ⟨[], [], []⟩] :
        List DriverEvent).filter DriverEvent.isSubmit).length = 1 ∧
    ([DriverEvent.predictCall,
      DriverEvent.registerOperationsCall "a"
        (experimentPermissions ⟨"agg"⟩ [⟨"a", []⟩]),
      DriverEvent.registerOperationsCall "agg"
        (experimentPermissions ⟨"agg"⟩ [⟨"a", []⟩]),
      DriverEvent.addComputePlanCall ⟨[], [], []⟩] :
        List DriverEvent).getLast? =
      some (DriverEvent.addComputePlanCall ⟨[], [], []⟩) :=
  have h := execute_experiment_single_submission FedAvg.init [⟨"a", []⟩] []
    ⟨"agg"⟩ 0 ⟨[], 0⟩
    [DriverEvent.predictCall,
      DriverEvent.registerOperationsCall "a"
        (experimentPermissions ⟨"agg"⟩ [⟨"a", []⟩]),
      DriverEvent.registerOperationsCall "agg"
        (experimentPermissions ⟨"agg"⟩ [⟨"a", []⟩]),
      DriverEvent.addComputePlanCall ⟨[], [], []⟩]
    ⟨[], [], []⟩ ⟨[], 0⟩ rfl
  ⟨h.2.1, h.2.2.1⟩

/-- C7 witness: a zero-round run over two train nodes with the same id —
the permission set is non-public, duplicate-free and contains exactly the
aggregation id and the train id. -/
theorem execute_experiment_uniform_permissions_witness :
    DriverEvent.registerOperationsCall "agg"
      (experimentPermissions ⟨"agg"⟩ [⟨"b", []⟩, ⟨"b", []⟩]) ∈
      ([DriverEvent.predictCall,
        DriverEvent.registerOperationsCall "b"
          (experimentPermissions ⟨"agg"⟩ [⟨"b", []⟩, ⟨"b", []⟩]),
        DriverEvent.registerOperationsCall "b"
          (experimentPermissions ⟨"agg"⟩ [⟨"b", []⟩, ⟨"b", []⟩]),
        DriverEvent.registerOperationsCall "agg"
          (experimentPermissions ⟨"agg"⟩ [⟨"b", []⟩, ⟨"b", []⟩]),
        DriverEvent.addComputePlanCall ⟨[], [], []⟩] : List DriverEvent) ∧
    (experimentPermissions ⟨"agg"⟩ [⟨"b", []⟩, ⟨"b", []⟩]).public = false ∧
    (experimentPermissions ⟨"agg"⟩
      [⟨"b", []⟩, ⟨"b", []⟩]).authorized_ids.Nodup ∧
    ("b" ∈ (experimentPermissions ⟨"agg"⟩
        [⟨"b", []⟩, ⟨"b", []⟩]).authorized_ids ↔
      ("b" = "agg" ∨ "b" ∈ ([⟨"b", []⟩, ⟨"b", []⟩] :
        List TrainDataOrganization).map (·.organization_id))) :=
  have h := execute_experiment_uniform_permissions FedAvg.init
    [⟨"b", []⟩, ⟨"b", []⟩] [] ⟨"agg"⟩ 0 ⟨[], 0⟩
    [DriverEvent.predictCall,
      DriverEvent.registerOperationsCall "b"
        (experimentPermissions ⟨"agg"⟩ [⟨"b", []⟩, ⟨"b", []⟩]),
      DriverEvent.registerOperationsCall "b"
        (experimentPermissions ⟨"agg"⟩ [⟨"b", []⟩, ⟨"b", []⟩]),
      DriverEvent.registerOperationsCall "agg"
        (experimentPermissions ⟨"agg"⟩ [⟨"b", []⟩, ⟨"b", []⟩]),
      DriverEvent.addComputePlanCall ⟨[], [], []⟩]
    ⟨[], [], []⟩ ⟨[], 0⟩ rfl
  ⟨h.2.1, h.2.2.1, h.2.2.2.1, h.2.2.2.2 "b"⟩

end Connectlib
